import Mathlib

/-!
Verification of the mcp-architect storage and coordination core.

The development shallowly embeds the repository's code:
* `src/types.ts` — the document data model (`ProjectArchitecture`,
  `ModuleSummary`, `ModuleDetails`, `UsageExample`, `ScriptDocumentation`);
* `src/storage.ts` — path resolution, JSON file read/write/list/delete and
  `normalizeProjectId`;
* the server entry point — the tool handlers (`set-project-architecture`,
  `set-module-details`, `get-module-details`, `delete-module`, ...).

Files on disk are modelled as a finite map from paths (segment lists) to
file contents; a file's bytes are abstracted as either the JSON value they
parse to or an unparseable blob.  The serialization performed by
`JSON.stringify` on the document records is embedded as explicit encoders
into a small JSON value type, with field omission for absent optional
fields, exactly as the originating code serializes them.
-/

namespace McpArch

/-- JSON values as persisted by the store (strings, arrays and objects are
the only shapes the documents use; `null` stands for any other value). -/
inductive Json where
  | null
  | str (s : String)
  | arr (elems : List Json)
  | obj (fields : List (String × Json))
deriving Repr

/-- Module summary embedded in the architecture document (`ModuleSummary`
in `src/types.ts`): `inputs`/`outputs` are optional. -/
structure ModuleSummary where
  id : String
  name : String
  description : String
  inputs : Option String
  outputs : Option String
  createdAt : String
  updatedAt : String
deriving Repr, DecidableEq

/-- One entry of the `dataFlow` record (`DataFlow` in `src/types.ts`). -/
structure DataFlowEntry where
  dependsOn : Option (List String)
  providesTo : Option (List String)
  dataTransformation : Option String
deriving Repr, DecidableEq

/-- The per-project architecture document (`ProjectArchitecture` in
`src/types.ts`); `dataFlow` maps module names to flow entries and is
modelled as an association list in object-key order. -/
structure ProjectArchitecture where
  projectId : String
  description : String
  modules : List ModuleSummary
  dataFlow : Option (List (String × DataFlowEntry))
  createdAt : String
  updatedAt : String
deriving Repr, DecidableEq

/-- A usage example attached to a module (`UsageExample` in `src/types.ts`). -/
structure UsageExample where
  title : String
  description : Option String
  command : Option String
  input : Option String
  output : Option String
  notes : Option String
deriving Repr, DecidableEq

/-- The independently stored long form of a module (`ModuleDetails` in
`src/types.ts`): `dependencies`, `files`, `usageExamples` and `notes` are
optional in the interface. -/
structure ModuleDetails where
  moduleId : String
  name : String
  description : String
  inputs : String
  outputs : String
  dependencies : Option (List String)
  files : Option (List String)
  usageExamples : Option (List UsageExample)
  notes : Option String
  createdAt : String
  updatedAt : String
deriving Repr, DecidableEq

/-- Script documentation document (`ScriptDocumentation` in
`src/types.ts`); `parameters` is a string-to-string record modelled as an
association list in object-key order. -/
structure ScriptDocumentation where
  scriptId : String
  scriptName : String
  description : String
  usage : String
  examples : List String
  parameters : List (String × String)
  notes : Option String
  createdAt : String
  updatedAt : String
deriving Repr, DecidableEq

/-! ### JSON encoding

Encoders mirror the object literals built by the handlers and serialized
with `JSON.stringify`: fields appear in the literal's insertion order and
`undefined` optional fields are omitted. -/

/-- Look a key up in an object's field list (first match, as
`JSON.parse` materializes and property access reads it). -/
def findField (k : String) : List (String × Json) → Option Json
  | [] => none
  | (k', v) :: rest => if k' = k then some v else findField k rest

/-- Field of an object value, if the value is an object. -/
def Json.lookupField : Json → String → Option Json
  | .obj fields, k => findField k fields
  | _, _ => none

/-- A JSON value's string content, if it is a string. -/
def Json.asStr : Json → Option String
  | .str s => some s
  | _ => none

/-- A JSON value's element list, if it is an array. -/
def Json.asArr : Json → Option (List Json)
  | .arr l => some l
  | _ => none

/-- A JSON value's field list, if it is an object. -/
def Json.asObj : Json → Option (List (String × Json))
  | .obj fields => some fields
  | _ => none

/-- An optional string field: omitted when absent, a JSON string when
present (the `undefined`-omission behaviour of `JSON.stringify`). -/
def optStrField (k : String) : Option String → List (String × Json)
  | none => []
  | some s => [(k, Json.str s)]

/-- An optional string-array field, omitted when absent. -/
def optStrArrField (k : String) : Option (List String) → List (String × Json)
  | none => []
  | some l => [(k, Json.arr (l.map Json.str))]

/-- Encoding of a `ModuleSummary` in the field order the handlers build it. -/
def encodeModuleSummary (m : ModuleSummary) : Json :=
  .obj ([("id", Json.str m.id), ("name", Json.str m.name),
         ("description", Json.str m.description)]
    ++ optStrField "inputs" m.inputs
    ++ optStrField "outputs" m.outputs
    ++ [("createdAt", Json.str m.createdAt), ("updatedAt", Json.str m.updatedAt)])

/-- Encoding of a `DataFlowEntry`. -/
def encodeDataFlowEntry (e : DataFlowEntry) : Json :=
  .obj (optStrArrField "dependsOn" e.dependsOn
    ++ optStrArrField "providesTo" e.providesTo
    ++ optStrField "dataTransformation" e.dataTransformation)

/-- Encoding of the `dataFlow` record: an object with one field per module
name. -/
def encodeDataFlow (df : List (String × DataFlowEntry)) : Json :=
  .obj (df.map fun p => (p.1, encodeDataFlowEntry p.2))

/-- Encoding of the architecture document in the handler's field order. -/
def encodeArchitecture (a : ProjectArchitecture) : Json :=
  .obj ([("projectId", Json.str a.projectId), ("description", Json.str a.description),
         ("modules", Json.arr (a.modules.map encodeModuleSummary))]
    ++ (match a.dataFlow with
        | none => []
        | some df => [("dataFlow", encodeDataFlow df)])
    ++ [("createdAt", Json.str a.createdAt), ("updatedAt", Json.str a.updatedAt)])

/-- Encoding of a `UsageExample`. -/
def encodeUsageExample (u : UsageExample) : Json :=
  .obj ([("title", Json.str u.title)]
    ++ optStrField "description" u.description
    ++ optStrField "command" u.command
    ++ optStrField "input" u.input
    ++ optStrField "output" u.output
    ++ optStrField "notes" u.notes)

/-- An optional usage-example-array field, omitted when absent. -/
def optExampleArrField (k : String) : Option (List UsageExample) → List (String × Json)
  | none => []
  | some l => [(k, Json.arr (l.map encodeUsageExample))]

/-- Encoding of a `ModuleDetails` document in the handler's field order. -/
def encodeModuleDetails (d : ModuleDetails) : Json :=
  .obj ([("moduleId", Json.str d.moduleId), ("name", Json.str d.name),
         ("description", Json.str d.description), ("inputs", Json.str d.inputs),
         ("outputs", Json.str d.outputs)]
    ++ optStrArrField "dependencies" d.dependencies
    ++ optStrArrField "files" d.files
    ++ optExampleArrField "usageExamples" d.usageExamples
    ++ optStrField "notes" d.notes
    ++ [("createdAt", Json.str d.createdAt), ("updatedAt", Json.str d.updatedAt)])

/-- Encoding of a `ScriptDocumentation` document in the handler's field
order. -/
def encodeScript (s : ScriptDocumentation) : Json :=
  .obj ([("scriptId", Json.str s.scriptId), ("scriptName", Json.str s.scriptName),
         ("description", Json.str s.description), ("usage", Json.str s.usage),
         ("examples", Json.arr (s.examples.map Json.str)),
         ("parameters", Json.obj (s.parameters.map fun p => (p.1, Json.str p.2)))]
    ++ optStrField "notes" s.notes
    ++ [("createdAt", Json.str s.createdAt), ("updatedAt", Json.str s.updatedAt)])

/-! ### JSON decoding

Decoders realize structural equality between a persisted JSON value and a
document record: a JSON value decodes to the document whose encoding it is,
key order being irrelevant because every field is read by name. -/

/-- Required string field. -/
def getStrField (j : Json) (k : String) : Option String :=
  (j.lookupField k).bind Json.asStr

/-- Optional string field: absence decodes to `none`. -/
def getOptStrField (j : Json) (k : String) : Option (Option String) :=
  match j.lookupField k with
  | none => some none
  | some v => (Json.asStr v).map some

/-- Decode every element of a JSON list. -/
def decodeAll (dec : Json → Option α) : List Json → Option (List α)
  | [] => some []
  | j :: rest => (dec j).bind fun x => (decodeAll dec rest).map fun xs => x :: xs

/-- Decode every field value of an object's field list, keeping keys. -/
def decodePairs (dec : Json → Option α) :
    List (String × Json) → Option (List (String × α))
  | [] => some []
  | (k, j) :: rest =>
      (dec j).bind fun x => (decodePairs dec rest).map fun xs => (k, x) :: xs

/-- Optional string-array field: absence decodes to `none`. -/
def getOptStrArrField (j : Json) (k : String) : Option (Option (List String)) :=
  match j.lookupField k with
  | none => some none
  | some v => ((v.asArr).bind (decodeAll Json.asStr)).map some

/-- Decode a `ModuleSummary`. -/
def decodeModuleSummary (j : Json) : Option ModuleSummary :=
  (getStrField j "id").bind fun id =>
  (getStrField j "name").bind fun name =>
  (getStrField j "description").bind fun description =>
  (getOptStrField j "inputs").bind fun inputs =>
  (getOptStrField j "outputs").bind fun outputs =>
  (getStrField j "createdAt").bind fun createdAt =>
  (getStrField j "updatedAt").map fun updatedAt =>
  { id, name, description, inputs, outputs, createdAt, updatedAt }

/-- Decode a `DataFlowEntry`. -/
def decodeDataFlowEntry (j : Json) : Option DataFlowEntry :=
  (getOptStrArrField j "dependsOn").bind fun dependsOn =>
  (getOptStrArrField j "providesTo").bind fun providesTo =>
  (getOptStrField j "dataTransformation").map fun dataTransformation =>
  { dependsOn, providesTo, dataTransformation }

/-- Decode an architecture document. -/
def decodeArchitecture (j : Json) : Option ProjectArchitecture :=
  (getStrField j "projectId").bind fun projectId =>
  (getStrField j "description").bind fun description =>
  ((j.lookupField "modules").bind Json.asArr).bind fun ms =>
  (decodeAll decodeModuleSummary ms).bind fun modules =>
  (match j.lookupField "dataFlow" with
   | none => some none
   | some v => ((v.asObj).bind (decodePairs decodeDataFlowEntry)).map some).bind
    fun dataFlow =>
  (getStrField j "createdAt").bind fun createdAt =>
  (getStrField j "updatedAt").map fun updatedAt =>
  { projectId, description, modules, dataFlow, createdAt, updatedAt }

/-- Decode a `UsageExample`. -/
def decodeUsageExample (j : Json) : Option UsageExample :=
  (getStrField j "title").bind fun title =>
  (getOptStrField j "description").bind fun description =>
  (getOptStrField j "command").bind fun command =>
  (getOptStrField j "input").bind fun input =>
  (getOptStrField j "output").bind fun output =>
  (getOptStrField j "notes").map fun notes =>
  { title, description, command, input, output, notes }

/-- Decode a `ModuleDetails` document. -/
def decodeModuleDetails (j : Json) : Option ModuleDetails :=
  (getStrField j "moduleId").bind fun moduleId =>
  (getStrField j "name").bind fun name =>
  (getStrField j "description").bind fun description =>
  (getStrField j "inputs").bind fun inputs =>
  (getStrField j "outputs").bind fun outputs =>
  (getOptStrArrField j "dependencies").bind fun dependencies =>
  (getOptStrArrField j "files").bind fun files =>
  (match j.lookupField "usageExamples" with
   | none => some none
   | some v => ((v.asArr).bind (decodeAll decodeUsageExample)).map some).bind
    fun usageExamples =>
  (getOptStrField j "notes").bind fun notes =>
  (getStrField j "createdAt").bind fun createdAt =>
  (getStrField j "updatedAt").map fun updatedAt =>
  { moduleId, name, description, inputs, outputs, dependencies, files,
    usageExamples, notes, createdAt, updatedAt }

/-- Decode a `ScriptDocumentation` document. -/
def decodeScript (j : Json) : Option ScriptDocumentation :=
  (getStrField j "scriptId").bind fun scriptId =>
  (getStrField j "scriptName").bind fun scriptName =>
  (getStrField j "description").bind fun description =>
  (getStrField j "usage").bind fun usage =>
  ((j.lookupField "examples").bind Json.asArr).bind fun ex =>
  (decodeAll Json.asStr ex).bind fun examples =>
  ((j.lookupField "parameters").bind Json.asObj).bind fun ps =>
  (decodePairs Json.asStr ps).bind fun parameters =>
  (getOptStrField j "notes").bind fun notes =>
  (getStrField j "createdAt").bind fun createdAt =>
  (getStrField j "updatedAt").map fun updatedAt =>
  { scriptId, scriptName, description, usage, examples, parameters, notes,
    createdAt, updatedAt }

/-! ### Codec round-trip lemmas -/

theorem decodeAll_map_encode {α : Type} (dec : Json → Option α) (enc : α → Json)
    (xs : List α) (h : ∀ x ∈ xs, dec (enc x) = some x) :
    decodeAll dec (xs.map enc) = some xs := by
  induction xs with
  | nil => simp [decodeAll]
  | cons x rest ih =>
      simp only [List.map_cons, decodeAll]
      rw [h x (by simp)]
      rw [ih fun y hy => h y (by simp [hy])]
      rfl

theorem decodePairs_map_encode {α : Type} (dec : Json → Option α) (enc : α → Json)
    (xs : List (String × α)) (h : ∀ p ∈ xs, dec (enc p.2) = some p.2) :
    decodePairs dec (xs.map fun p => (p.1, enc p.2)) = some xs := by
  induction xs with
  | nil => simp [decodePairs]
  | cons p rest ih =>
      simp only [List.map_cons, decodePairs]
      rw [h p (by simp)]
      rw [ih fun q hq => h q (by simp [hq])]
      rfl

theorem decodeAll_asStr (xs : List String) :
    decodeAll Json.asStr (xs.map Json.str) = some xs :=
  decodeAll_map_encode Json.asStr Json.str xs (by intro x _; rfl)

theorem decodeModuleSummary_encode (m : ModuleSummary) :
    decodeModuleSummary (encodeModuleSummary m) = some m := by
  rcases m with ⟨id, name, description, inputs, outputs, createdAt, updatedAt⟩
  rcases inputs with _ | i <;> rcases outputs with _ | o <;>
    simp [decodeModuleSummary, encodeModuleSummary, getStrField, getOptStrField,
      Json.lookupField, Json.asStr, findField, optStrField]

theorem decodeDataFlowEntry_encode (e : DataFlowEntry) :
    decodeDataFlowEntry (encodeDataFlowEntry e) = some e := by
  rcases e with ⟨d, p, t⟩
  rcases d with _ | d <;> rcases p with _ | p <;> rcases t with _ | t <;>
    simp [decodeDataFlowEntry, encodeDataFlowEntry, getOptStrArrField, getOptStrField,
      Json.lookupField, Json.asStr, Json.asArr, findField, optStrField, optStrArrField,
      decodeAll_asStr]

theorem decodeUsageExample_encode (u : UsageExample) :
    decodeUsageExample (encodeUsageExample u) = some u := by
  rcases u with ⟨t, d, c, i, o, n⟩
  rcases d with _ | d <;> rcases c with _ | c <;> rcases i with _ | i <;>
    rcases o with _ | o <;> rcases n with _ | n <;>
    simp [decodeUsageExample, encodeUsageExample, getStrField, getOptStrField,
      Json.lookupField, Json.asStr, findField, optStrField]

theorem decodeArchitecture_encode (a : ProjectArchitecture) :
    decodeArchitecture (encodeArchitecture a) = some a := by
  rcases a with ⟨pid, desc, modules, dataFlow, c, u⟩
  have hm : decodeAll decodeModuleSummary (modules.map encodeModuleSummary)
      = some modules :=
    decodeAll_map_encode _ _ _ (by intro x _; exact decodeModuleSummary_encode x)
  rcases dataFlow with _ | df
  · simp [decodeArchitecture, encodeArchitecture, getStrField,
      Json.lookupField, Json.asStr, Json.asArr, Json.asObj, findField, hm]
  · simp [decodeArchitecture, encodeArchitecture, getStrField,
      Json.lookupField, Json.asStr, Json.asArr, Json.asObj, findField, hm,
      encodeDataFlow,
      decodePairs_map_encode decodeDataFlowEntry encodeDataFlowEntry df
        (by intro p _; exact decodeDataFlowEntry_encode p.2)]

theorem decodeModuleDetails_encode (d : ModuleDetails) :
    decodeModuleDetails (encodeModuleDetails d) = some d := by
  rcases d with ⟨mid, name, desc, inp, oup, deps, files, ex, notes, c, u⟩
  have hex : ∀ l : List UsageExample,
      decodeAll decodeUsageExample (l.map encodeUsageExample) = some l := by
    intro l
    exact decodeAll_map_encode _ _ _ (by intro x _; exact decodeUsageExample_encode x)
  rcases deps with _ | deps <;> rcases files with _ | files <;>
    rcases ex with _ | ex <;> rcases notes with _ | notes <;>
    simp [decodeModuleDetails, encodeModuleDetails, getStrField, getOptStrField,
      getOptStrArrField, Json.lookupField, Json.asStr, Json.asArr, findField,
      optStrField, optStrArrField, optExampleArrField, decodeAll_asStr, hex]

theorem decodeScript_encode (s : ScriptDocumentation) :
    decodeScript (encodeScript s) = some s := by
  rcases s with ⟨sid, sname, desc, usage, examples, parameters, notes, c, u⟩
  have hp : decodePairs Json.asStr (parameters.map fun p => (p.1, Json.str p.2))
      = some parameters :=
    decodePairs_map_encode _ _ _ (by intro p _; rfl)
  rcases notes with _ | notes <;>
    simp [decodeScript, encodeScript, getStrField, getOptStrField,
      Json.lookupField, Json.asStr, Json.asArr, Json.asObj, findField,
      optStrField, decodeAll_asStr, hp]

/-! ### Association-list primitives

The filesystem and the per-project document directories are modelled as
finite maps represented by association lists; an overwrite replaces the
existing binding in place. -/

/-- First binding of a key, if any. -/
def findAssoc {κ α : Type} [DecidableEq κ] (k : κ) : List (κ × α) → Option α
  | [] => none
  | (k', v) :: rest => if k' = k then some v else findAssoc k rest

/-- Bind a key, replacing the first existing binding or appending. -/
def setAssoc {κ α : Type} [DecidableEq κ] (k : κ) (v : α) :
    List (κ × α) → List (κ × α)
  | [] => [(k, v)]
  | (k', v') :: rest =>
      if k' = k then (k, v) :: rest else (k', v') :: setAssoc k v rest

theorem findAssoc_setAssoc_self {κ α : Type} [DecidableEq κ] (k : κ) (v : α)
    (l : List (κ × α)) : findAssoc k (setAssoc k v l) = some v := by
  induction l with
  | nil => simp [findAssoc, setAssoc]
  | cons p rest ih =>
      by_cases h : p.1 = k <;> simp [findAssoc, setAssoc, h, ih]

theorem findAssoc_setAssoc_ne {κ α : Type} [DecidableEq κ] (k k' : κ) (v : α)
    (l : List (κ × α)) (h : k' ≠ k) :
    findAssoc k' (setAssoc k v l) = findAssoc k' l := by
  have h1 : ¬ k = k' := fun hc => h hc.symm
  induction l with
  | nil => simp only [setAssoc, findAssoc, if_neg h1]
  | cons p rest ih =>
      obtain ⟨pk, pv⟩ := p
      simp only [setAssoc]
      by_cases hp : pk = k
      · have h2 : ¬ pk = k' := fun hc => h (hp.symm.trans hc).symm
        rw [if_pos hp]
        simp only [findAssoc, if_neg h1, if_neg h2]
      · rw [if_neg hp]
        simp only [findAssoc]
        by_cases hp' : pk = k'
        · rw [if_pos hp', if_pos hp']
        · rw [if_neg hp', if_neg hp', ih]

/-! ### Path resolution (`src/storage.ts`)

Paths are segment lists rooted at the filesystem root.  Node's
`path.join` concatenates its arguments with the separator and normalizes
the result; on an absolute path normalization drops empty and `.` segments
and lets `..` pop the previous segment (or vanish at the root).  No other
sanitization is applied. -/

/-- Sequences of path segments (an absolute path, split at `/`). -/
abbrev Path := List String

/-- One normalization step of Node's `path.normalize` on absolute paths. -/
def normStep (acc : List String) (s : String) : List String :=
  if s = "" ∨ s = "." then acc
  else if s = ".." then acc.dropLast
  else acc ++ [s]

/-- Normalize an absolute path's segment sequence. -/
def normSegs (segs : List String) : List String := segs.foldl normStep []

/-- Split a character sequence at `/`, keeping empty segments. -/
def splitSegsAux : List Char → List Char → List String
  | [], acc => [String.mk acc.reverse]
  | c :: rest, acc =>
      if c = '/' then String.mk acc.reverse :: splitSegsAux rest []
      else splitSegsAux rest (c :: acc)

/-- Split a path-typed string argument at separators, as `path.join` does
(empty segments contribute nothing). -/
def splitPath (s : String) : List String :=
  (splitSegsAux s.data []).filter (fun x => x ≠ "")

/-- Node's `path.join base part1 ... partN`: concatenate and normalize. -/
def pathJoin (base : Path) (parts : List String) : Path :=
  normSegs (base ++ (parts.map splitPath).flatten)

/-- The fixed process-wide storage root, `path.join(os.homedir(),
'.mcp-architector')`, parameterized by the home directory. -/
def storageBaseDir (home : Path) : Path := pathJoin home [".mcp-architector"]

/-- Function `getProjectDir`: `path.join(STORAGE_BASE_DIR, projectId)` — the
project id is passed to the join verbatim. -/
def getProjectDir (home : Path) (projectId : String) : Path :=
  pathJoin (storageBaseDir home) [projectId]

/-- Function `getArchitectureFile`. -/
def getArchitectureFile (home : Path) (projectId : String) : Path :=
  pathJoin (getProjectDir home projectId) ["architecture.json"]

/-- Function `getModuleFile`: the module id is spliced into the file name verbatim. -/
def getModuleFile (home : Path) (projectId moduleId : String) : Path :=
  pathJoin (getProjectDir home projectId) ["modules", moduleId ++ ".json"]

/-- Function `getScriptFile`: the script id is spliced into the file name verbatim. -/
def getScriptFile (home : Path) (projectId scriptId : String) : Path :=
  pathJoin (getProjectDir home projectId) ["scripts", scriptId ++ ".json"]

/-! ### Filesystem model and the document store -/

/-- Bytes of a stored file, abstracted by their JSON parse: either the
JSON value `JSON.parse` yields, or an unparseable blob on which
`JSON.parse` throws. -/
inductive FileContent where
  | json (value : Json)
  | invalid (raw : String)

/-- Storage faults: a missing file or directory (`ENOENT`), or a
`JSON.parse` failure on existing bytes. -/
inductive StorageError where
  | enoent
  | parseFailure (raw : String)
deriving Repr, DecidableEq

/-- Filesystem state: files by path, plus the set of existing directories
(needed because a directory listing on a missing directory is `ENOENT`). -/
structure FS where
  files : List (Path × FileContent)
  dirs : List Path

/-- Read a JSON document at a path: `fs.readFile` + `JSON.parse`, with
`ENOENT` caught and turned into an absent value and every other failure
rethrown — the common body of `readArchitecture`, `readModule` and
`readScript`. -/
def readJsonDoc (fs : FS) (p : Path) : Except StorageError (Option Json) :=
  match findAssoc p fs.files with
  | none => .ok none
  | some (.json j) => .ok (some j)
  | some (.invalid raw) => .error (.parseFailure raw)

/-- Operation `ensureDirectoryExists`: create the directory if absent, no-op else. -/
def ensureDir (d : Path) (fs : FS) : FS :=
  if fs.dirs.contains d then fs else { fs with dirs := fs.dirs ++ [d] }

/-- Operation `initializeProjectStorage`: ensure the project dir and `modules/`. -/
def initializeProjectStorage (home : Path) (projectId : String) (fs : FS) : FS :=
  ensureDir (pathJoin (getProjectDir home projectId) ["modules"])
    (ensureDir (getProjectDir home projectId) fs)

/-- Operation `fs.writeFile`: replace the file's full contents. -/
def writeFile (p : Path) (c : FileContent) (fs : FS) : FS :=
  { fs with files := setAssoc p c fs.files }

/-- Operation `readArchitecture`. -/
def readArchitecture (home : Path) (fs : FS) (projectId : String) :
    Except StorageError (Option Json) :=
  readJsonDoc fs (getArchitectureFile home projectId)

/-- Operation `writeArchitecture`: ensure the layout, then serialize and write. -/
def writeArchitecture (home : Path) (projectId : String)
    (architecture : ProjectArchitecture) (fs : FS) : FS :=
  writeFile (getArchitectureFile home projectId)
    (.json (encodeArchitecture architecture))
    (initializeProjectStorage home projectId fs)

/-- Operation `readModule`. -/
def readModule (home : Path) (fs : FS) (projectId moduleId : String) :
    Except StorageError (Option Json) :=
  readJsonDoc fs (getModuleFile home projectId moduleId)

/-- Operation `writeModule`: the file name comes from the document's own id. -/
def writeModule (home : Path) (projectId : String) (d : ModuleDetails) (fs : FS) : FS :=
  writeFile (getModuleFile home projectId d.moduleId)
    (.json (encodeModuleDetails d))
    (initializeProjectStorage home projectId fs)

/-- Operation `readScript`. -/
def readScript (home : Path) (fs : FS) (projectId scriptId : String) :
    Except StorageError (Option Json) :=
  readJsonDoc fs (getScriptFile home projectId scriptId)

/-- Operation `writeScript`: also ensures the `scripts/` directory. -/
def writeScript (home : Path) (projectId : String) (s : ScriptDocumentation)
    (fs : FS) : FS :=
  writeFile (getScriptFile home projectId s.scriptId)
    (.json (encodeScript s))
    (ensureDir (pathJoin (getProjectDir home projectId) ["scripts"])
      (initializeProjectStorage home projectId fs))

/-- Name of a direct child of directory `d` at path `p`, if `p` is one. -/
def childName (d : Path) (p : Path) : Option String :=
  match p.getLast? with
  | none => none
  | some n => if p.dropLast = d then some n else none

/-- Operation `fs.readdir`: the directory's file entries, `ENOENT` when missing. -/
def readdir (fs : FS) (d : Path) : Except StorageError (List String) :=
  if fs.dirs.contains d then .ok (fs.files.filterMap fun pc => childName d pc.1)
  else .error .enoent

/-- Whether the pattern occurs at the head of the character list. -/
def startsWithChars : List Char → List Char → Bool
  | [], _ => true
  | _ :: _, [] => false
  | a :: as, b :: bs => a == b && startsWithChars as bs

/-- JavaScript's `String.endsWith`. -/
def strEndsWith (suffix s : String) : Bool :=
  startsWithChars suffix.data.reverse s.data.reverse

/-- Remove the first occurrence of the pattern, leaving the rest of the
string untouched — JavaScript's `s.replace(pat, '')` with a string
pattern. -/
def dropFirstOccur (pat : List Char) : List Char → List Char
  | [] => []
  | c :: rest =>
      if startsWithChars pat (c :: rest) then (c :: rest).drop pat.length
      else c :: dropFirstOccur pat rest

/-- The listing transformation shared by `listModules` and `listScripts`:
`files.filter(f => f.endsWith('.json')).map(f => f.replace('.json', ''))`. -/
def jsonBaseNames (files : List String) : List String :=
  (files.filter fun f => strEndsWith ".json" f).map
    fun f => String.mk (dropFirstOccur ".json".data f.data)

/-- Operation `listModules`: list the `modules/` directory, with `ENOENT` caught and
turned into the empty sequence and every other failure rethrown. -/
def listModules (home : Path) (fs : FS) (projectId : String) :
    Except StorageError (List String) :=
  match readdir fs (pathJoin (getProjectDir home projectId) ["modules"]) with
  | .ok files => .ok (jsonBaseNames files)
  | .error .enoent => .ok []
  | .error e => .error e

/-- Operation `listScripts`: same shape over the `scripts/` directory. -/
def listScripts (home : Path) (fs : FS) (projectId : String) :
    Except StorageError (List String) :=
  match readdir fs (pathJoin (getProjectDir home projectId) ["scripts"]) with
  | .ok files => .ok (jsonBaseNames files)
  | .error .enoent => .ok []
  | .error e => .error e

/-! ### Identifier normalization (`normalizeProjectId`) -/

/-- Characters the normalization keeps: the regex class `[a-zA-Z0-9_-]`. -/
def isAllowedChar (c : Char) : Bool :=
  ('a' ≤ c && c ≤ 'z') || ('A' ≤ c && c ≤ 'Z') || ('0' ≤ c && c ≤ '9')
    || c == '_' || c == '-'

/-- Replacement applied to each character by the normalization. -/
def normChar (c : Char) : Char := if isAllowedChar c then c else '_'

/-- Function `normalizeProjectId`: `undefined` or the empty string are rejected
(the thrown `Project ID is required` error, modelled as `none`); any other
input is rewritten character by character. -/
def normalizeProjectId (workdir : Option String) : Option String :=
  match workdir with
  | none => none
  | some w => if w = "" then none else some (String.mk (w.data.map normChar))

/-- The handlers' project-id fallback chain
`providedProjectId || globalProjectId || "default-project"`, with
JavaScript truthiness (the empty string falls through). -/
def jsOrDefault (v : Option String) (fallback : String) : String :=
  match v with
  | none => fallback
  | some s => if s = "" then fallback else s

/-- The project id a tool handler actually uses: the caller-supplied id
verbatim when truthy, else the global id, else `default-project`. -/
def effectiveProjectId (provided globalProjectId : Option String) : String :=
  jsOrDefault provided (jsOrDefault globalProjectId "default-project")

/-! ### Tool handlers (server entry point)

The handlers operate on one project's decoded documents: the architecture
document (if its file exists) and the per-id module and script documents.
The opaque unique-id and current-time suppliers (`uuidv4`, `new Date()`)
are passed in explicitly. -/

/-- Decoded storage state of one project. -/
structure ProjectState where
  architecture : Option ProjectArchitecture
  moduleFiles : List (String × ModuleDetails)
  scriptFiles : List (String × ScriptDocumentation)
deriving Repr, DecidableEq

/-- Input of the `set-module-details` tool (after schema validation). -/
structure SetModuleInput where
  name : String
  description : String
  inputs : String
  outputs : String
  dependencies : Option (List String)
  files : Option (List String)
  usageExamples : Option (List UsageExample)
  notes : Option String
deriving Repr, DecidableEq

/-- The `ModuleDetails` document the `set-module-details` handler builds
before writing: every field present, absent optional inputs defaulted. -/
def mkModuleDetails (moduleId now : String) (inp : SetModuleInput) : ModuleDetails :=
  { moduleId, name := inp.name, description := inp.description,
    inputs := inp.inputs, outputs := inp.outputs,
    dependencies := some (inp.dependencies.getD []),
    files := some (inp.files.getD []),
    usageExamples := some (inp.usageExamples.getD []),
    notes := some (inp.notes.getD ""),
    createdAt := now, updatedAt := now }

/-- In-place update of the first summary with the given name, as the
handler mutates the record returned by `Array.find`. -/
def updateFirstModule (name desc now : String) :
    List ModuleSummary → List ModuleSummary
  | [] => []
  | m :: rest =>
      if m.name == name then { m with description := desc, updatedAt := now } :: rest
      else m :: updateFirstModule name desc now rest

/-- The `set-module-details` handler: reuse the existing summary's id (or
mint `freshId`), sync the architecture document when it exists, and always
write the full details document.  Returns the module id it reports. -/
def setModuleDetails (freshId now : String) (inp : SetModuleInput)
    (st : ProjectState) : String × ProjectState :=
  match st.architecture with
  | some arch =>
      match arch.modules.find? (fun m => m.name == inp.name) with
      | some existing =>
          let arch' := { arch with
            modules := updateFirstModule inp.name inp.description now arch.modules,
            updatedAt := now }
          (existing.id, { st with
            architecture := some arch',
            moduleFiles := setAssoc existing.id (mkModuleDetails existing.id now inp)
              st.moduleFiles })
      | none =>
          let newSummary : ModuleSummary :=
            { id := freshId, name := inp.name, description := inp.description,
              inputs := none, outputs := none, createdAt := now, updatedAt := now }
          let arch' := { arch with
            modules := arch.modules ++ [newSummary],
            updatedAt := now }
          (freshId, { st with
            architecture := some arch',
            moduleFiles := setAssoc freshId (mkModuleDetails freshId now inp)
              st.moduleFiles })
  | none =>
      (freshId, { st with
        moduleFiles := setAssoc freshId (mkModuleDetails freshId now inp)
          st.moduleFiles })

/-- Outcome of the `get-module-details` handler, mirroring its four
responses. -/
inductive GetModuleResult where
  | noArchitecture
  | moduleNotFound
  | noDetails (summary : ModuleSummary)
  | found (details : ModuleDetails)
deriving Repr, DecidableEq

/-- The `get-module-details` handler: look the summary up by name in the
architecture, then read the details document at the summary's id. -/
def getModuleDetails (name : String) (st : ProjectState) : GetModuleResult :=
  match st.architecture with
  | none => .noArchitecture
  | some arch =>
      match arch.modules.find? (fun m => m.name == name) with
      | none => .moduleNotFound
      | some m =>
          match findAssoc m.id st.moduleFiles with
          | none => .noDetails m
          | some d => .found d

/-- Outcome of the `delete-module` handler. -/
inductive DeleteResult where
  | archNotFound
  | moduleNotFound
  | deleted
deriving Repr, DecidableEq

/-- The `delete-module` handler: both not-found cases return a message
without touching storage; otherwise the details file is removed, the
summary entries with the module's id are filtered out and the stamped
architecture is persisted. -/
def deleteModuleByName (now name : String) (st : ProjectState) :
    DeleteResult × ProjectState :=
  match st.architecture with
  | none => (.archNotFound, st)
  | some arch =>
      match arch.modules.find? (fun m => m.name == name) with
      | none => (.moduleNotFound, st)
      | some m =>
          let arch' := { arch with
            modules := arch.modules.filter (fun x => x.id != m.id),
            updatedAt := now }
          (.deleted, { st with
            architecture := some arch',
            moduleFiles := st.moduleFiles.filter (fun p => p.1 != m.id) })

/-- One module entry of the `set-project-architecture` input. -/
structure ArchModuleInput where
  name : String
  description : String
  inputs : Option String
  outputs : Option String
deriving Repr, DecidableEq

/-- Input of the `set-project-architecture` tool. -/
structure SetArchitectureInput where
  description : String
  modules : List ArchModuleInput
  dataFlow : Option (List (String × DataFlowEntry))
deriving Repr, DecidableEq

/-- The summaries `set-project-architecture` builds: a fresh id is minted
for every module entry, whatever ids the previous architecture held. -/
def mkSummaries (fresh : Nat → String) (now : String) :
    Nat → List ArchModuleInput → List ModuleSummary
  | _, [] => []
  | i, m :: rest =>
      { id := fresh i, name := m.name, description := m.description,
        inputs := m.inputs, outputs := m.outputs,
        createdAt := now, updatedAt := now } :: mkSummaries fresh now (i + 1) rest

/-- The `set-project-architecture` handler: a wholesale replacement of the
architecture document. -/
def setProjectArchitecture (fresh : Nat → String) (now projectId : String)
    (inp : SetArchitectureInput) (st : ProjectState) : ProjectState :=
  let architecture : ProjectArchitecture :=
    { projectId, description := inp.description,
      modules := mkSummaries fresh now 0 inp.modules,
      dataFlow := inp.dataFlow, createdAt := now, updatedAt := now }
  { st with architecture := some architecture }

/-! ### Handler-layer helper lemmas -/

theorem find?_updateFirstModule (name desc now : String) (l : List ModuleSummary) :
    (updateFirstModule name desc now l).find? (fun m => m.name == name)
      = (l.find? (fun m => m.name == name)).map
          (fun m => { m with description := desc, updatedAt := now }) := by
  induction l with
  | nil => rfl
  | cons m rest ih =>
      cases hb : m.name == name
      · simp [updateFirstModule, List.find?, hb, ih]
      · simp [updateFirstModule, List.find?, hb]

theorem idName_updateFirstModule (name desc now : String) (l : List ModuleSummary) :
    (updateFirstModule name desc now l).map (fun m => (m.id, m.name))
      = l.map fun m => (m.id, m.name) := by
  induction l with
  | nil => rfl
  | cons m rest ih => by_cases h : m.name = name <;> simp [updateFirstModule, h, ih]

theorem countP_name_updateFirstModule (name desc now n' : String)
    (l : List ModuleSummary) :
    (updateFirstModule name desc now l).countP (fun m => m.name == n')
      = l.countP (fun m => m.name == n') := by
  induction l with
  | nil => rfl
  | cons m rest ih =>
      cases hb : m.name == name <;> cases hb' : m.name == n' <;>
        simp [updateFirstModule, List.countP_cons, hb, hb', ih]

/-! ### Claim theorems -/

/-- C3: on a project whose architecture document exists, `delete-module`
with a name not present in the architecture's module list reports the
module-not-found outcome as a returned value and performs no write at all:
the whole project state — architecture document and every module-details
file — is exactly the original one. -/
theorem deleteModule_absent_name_no_write
    (arch : ProjectArchitecture) (mf : List (String × ModuleDetails))
    (sf : List (String × ScriptDocumentation)) (now name : String)
    (h : arch.modules.find? (fun m => m.name == name) = none) :
    deleteModuleByName now name ⟨some arch, mf, sf⟩
      = (.moduleNotFound, ⟨some arch, mf, sf⟩) := by
  simp [deleteModuleByName, h]

/-- Witness for C3 at a concrete state: an architecture listing only the
module `x` (with a details file on disk), deleting the absent name `y`. -/
theorem deleteModule_absent_name_no_write_witness :
    deleteModuleByName "t1" "y"
      ⟨some ⟨"p", "d", [⟨"a", "x", "dx", none, none, "t0", "t0"⟩], none, "t0", "t0"⟩,
       [("a", ⟨"a", "x", "dx", "i", "o", some [], some [], some [], some "", "t0", "t0"⟩)],
       []⟩
      = (.moduleNotFound,
         ⟨some ⟨"p", "d", [⟨"a", "x", "dx", none, none, "t0", "t0"⟩], none, "t0", "t0"⟩,
          [("a", ⟨"a", "x", "dx", "i", "o", some [], some [], some [], some "", "t0", "t0"⟩)],
          []⟩) :=
  deleteModule_absent_name_no_write _ _ _ _ _ (by decide)

/-- C9: `set-module-details` always persists the full `ModuleDetails`
document — every field present, absent optional inputs defaulted — under
the returned module id, whether or not the architecture document exists;
the returned id is the existing summary's id when the name is already
listed and the freshly minted id otherwise. -/
theorem setModuleDetails_always_writes_details
    (freshId now : String) (inp : SetModuleInput) (st : ProjectState) :
    findAssoc (setModuleDetails freshId now inp st).1
        (setModuleDetails freshId now inp st).2.moduleFiles
      = some { moduleId := (setModuleDetails freshId now inp st).1,
               name := inp.name, description := inp.description,
               inputs := inp.inputs, outputs := inp.outputs,
               dependencies := some (inp.dependencies.getD []),
               files := some (inp.files.getD []),
               usageExamples := some (inp.usageExamples.getD []),
               notes := some (inp.notes.getD ""),
               createdAt := now, updatedAt := now }
    ∧ (setModuleDetails freshId now inp st).1
      = (match st.architecture with
         | none => freshId
         | some arch =>
             match arch.modules.find? (fun m => m.name == inp.name) with
             | some existing => existing.id
             | none => freshId) := by
  rcases st with ⟨archOpt, mf, sf⟩
  rcases archOpt with _ | arch
  · exact ⟨by simp [setModuleDetails, mkModuleDetails, findAssoc_setAssoc_self], rfl⟩
  · rcases hfind : arch.modules.find? (fun m => m.name == inp.name) with _ | ex <;>
      exact ⟨by simp [setModuleDetails, hfind, mkModuleDetails, findAssoc_setAssoc_self],
             by simp [setModuleDetails, hfind]⟩

/-- C1 counterexample: on a project with no architecture document, an
upsert followed by `get-module-details` does not return the written
details (the getter reports no architecture), and two upserts of the same
name mint two distinct module ids (the unique-id supplier never repeats). -/
theorem upsert_then_get_no_architecture_counterexample :
    (getModuleDetails "m"
        (setModuleDetails "id-1" "t1" ⟨"m", "d", "i", "o", none, none, none, none⟩
          ⟨none, [], []⟩).2
      = .noArchitecture)
    ∧ (setModuleDetails "id-1" "t1" ⟨"m", "d", "i", "o", none, none, none, none⟩
        ⟨none, [], []⟩).1 = "id-1"
    ∧ (setModuleDetails "id-2" "t2" ⟨"m", "d", "i", "o", none, none, none, none⟩
        (setModuleDetails "id-1" "t1" ⟨"m", "d", "i", "o", none, none, none, none⟩
          ⟨none, [], []⟩).2).1 = "id-2"
    ∧ ("id-2" : String) ≠ "id-1" :=
  ⟨rfl, rfl, rfl, by decide⟩

/-- C1 (amended): provided the project's architecture document exists,
`set-module-details` followed by `get-module-details` on the same name
returns exactly the written `ModuleDetails` document — in particular its
`name` and `description` equal the upsert's inputs and its `moduleId` is
the returned id — and any further upsert with the same name returns that
same module id. -/
theorem upsert_then_get_with_architecture
    (arch : ProjectArchitecture) (mf : List (String × ModuleDetails))
    (sf : List (String × ScriptDocumentation))
    (freshId now : String) (inp : SetModuleInput) :
    let st := ProjectState.mk (some arch) mf sf
    let mid := (setModuleDetails freshId now inp st).1
    let st1 := (setModuleDetails freshId now inp st).2
    getModuleDetails inp.name st1 = .found (mkModuleDetails mid now inp)
    ∧ (mkModuleDetails mid now inp).name = inp.name
    ∧ (mkModuleDetails mid now inp).description = inp.description
    ∧ (mkModuleDetails mid now inp).moduleId = mid
    ∧ ∀ (freshId2 now2 d2 i2 o2 : String) (dep2 fl2 : Option (List String))
        (ue2 : Option (List UsageExample)) (n2 : Option String),
        (setModuleDetails freshId2 now2 ⟨inp.name, d2, i2, o2, dep2, fl2, ue2, n2⟩
          st1).1 = mid := by
  intro st mid st1
  rcases hfind : arch.modules.find? (fun m => m.name == inp.name) with _ | ex
  · refine ⟨?_, rfl, rfl, rfl, ?_⟩
    · simp [st1, mid, st, setModuleDetails, hfind, getModuleDetails,
        List.find?_append, findAssoc_setAssoc_self]
    · intro freshId2 now2 d2 i2 o2 dep2 fl2 ue2 n2
      simp [st1, mid, st, setModuleDetails, hfind, List.find?_append]
  · refine ⟨?_, rfl, rfl, rfl, ?_⟩
    · simp [st1, mid, st, setModuleDetails, hfind, getModuleDetails,
        find?_updateFirstModule, findAssoc_setAssoc_self]
    · intro freshId2 now2 d2 i2 o2 dep2 fl2 ue2 n2
      simp [st1, mid, st, setModuleDetails, hfind, find?_updateFirstModule]

/-- C2 counterexample: `set-project-architecture` re-mints every module
id; re-setting the architecture with a module of the same name replaces
its id (`a` becomes the freshly supplied `b`), so the id is not stable
under every architecture-rewriting operation. -/
theorem setProjectArchitecture_remints_ids :
    (setProjectArchitecture (fun _ => "b") "t1" "p"
        ⟨"d2", [⟨"m", "d2", none, none⟩], none⟩
        ⟨some ⟨"p", "d", [⟨"a", "m", "d", none, none, "t0", "t0"⟩], none, "t0", "t0"⟩,
         [], []⟩).architecture
      = some ⟨"p", "d2", [⟨"b", "m", "d2", none, none, "t1", "t1"⟩], none, "t1", "t1"⟩
    ∧ ("b" : String) ≠ "a" :=
  ⟨rfl, by decide⟩

/-- C2 (amended): under `set-module-details` ids are stable — every
(id, name) pair of the existing architecture survives the upsert (with at
most a freshly minted pair appended), and when a summary with the upserted
name already exists its id is reused as the returned module id.
`set-project-architecture`, by contrast, re-mints all ids (see the
counterexample). -/
theorem setModuleDetails_id_stability
    (arch : ProjectArchitecture) (mf : List (String × ModuleDetails))
    (sf : List (String × ScriptDocumentation))
    (freshId now : String) (inp : SetModuleInput) :
    (∃ tail,
      ((setModuleDetails freshId now inp ⟨some arch, mf, sf⟩).2.architecture.map
          fun a => a.modules.map fun m => (m.id, m.name))
        = some ((arch.modules.map fun m => (m.id, m.name)) ++ tail))
    ∧ ∀ ex, arch.modules.find? (fun m => m.name == inp.name) = some ex →
        (setModuleDetails freshId now inp ⟨some arch, mf, sf⟩).1 = ex.id := by
  rcases hfind : arch.modules.find? (fun m => m.name == inp.name) with _ | ex
  · refine ⟨⟨[(freshId, inp.name)], ?_⟩, ?_⟩
    · simp [setModuleDetails, hfind]
    · intro ex hex
      rw [hfind] at hex
      exact absurd hex (by simp)
  · refine ⟨⟨[], ?_⟩, ?_⟩
    · simp [setModuleDetails, hfind, idName_updateFirstModule]
    · intro ex' hex
      rw [hfind] at hex
      obtain rfl : ex = ex' := by injection hex
      simp [setModuleDetails, hfind]

/-- Witness for C2's theorem at a concrete state where the name exists:
the reuse branch returns the pre-existing id `a`. -/
theorem setModuleDetails_id_stability_witness :
    (∃ tail,
      ((setModuleDetails "f" "t1" ⟨"m", "d2", "i", "o", none, none, none, none⟩
          ⟨some ⟨"p", "d", [⟨"a", "m", "d", none, none, "t0", "t0"⟩], none, "t0", "t0"⟩,
           [], []⟩).2.architecture.map
          fun a => a.modules.map fun m => (m.id, m.name))
        = some (([⟨"a", "m", "d", none, none, "t0", "t0"⟩].map
            fun m : ModuleSummary => (m.id, m.name)) ++ tail))
    ∧ (setModuleDetails "f" "t1" ⟨"m", "d2", "i", "o", none, none, none, none⟩
        ⟨some ⟨"p", "d", [⟨"a", "m", "d", none, none, "t0", "t0"⟩], none, "t0", "t0"⟩,
         [], []⟩).1 = "a" :=
  ⟨(setModuleDetails_id_stability
      ⟨"p", "d", [⟨"a", "m", "d", none, none, "t0", "t0"⟩], none, "t0", "t0"⟩ [] []
      "f" "t1" ⟨"m", "d2", "i", "o", none, none, none, none⟩).1,
   (setModuleDetails_id_stability
      ⟨"p", "d", [⟨"a", "m", "d", none, none, "t0", "t0"⟩], none, "t0", "t0"⟩ [] []
      "f" "t1" ⟨"m", "d2", "i", "o", none, none, none, none⟩).2
     ⟨"a", "m", "d", none, none, "t0", "t0"⟩ rfl⟩

/-- C4: starting from an architecture holding exactly one summary of the
given name, upserting that name twice with two descriptions leaves exactly
one summary of that name — no duplicate is appended — and the surviving
entry carries the second description. -/
theorem upsert_twice_no_duplicate
    (arch : ProjectArchitecture) (mf : List (String × ModuleDetails))
    (sf : List (String × ScriptDocumentation))
    (f1 t1 f2 t2 : String) (inp1 inp2 : SetModuleInput)
    (hname : inp2.name = inp1.name)
    (hdesc : inp2.description ≠ inp1.description)
    (hcount : arch.modules.countP (fun m => m.name == inp1.name) = 1) :
    ∃ arch2,
      (setModuleDetails f2 t2 inp2
          (setModuleDetails f1 t1 inp1 ⟨some arch, mf, sf⟩).2).2.architecture
        = some arch2
      ∧ arch2.modules.countP (fun m => m.name == inp1.name) = 1
      ∧ ∃ m2, arch2.modules.find? (fun m => m.name == inp1.name) = some m2
          ∧ m2.description = inp2.description := by
  rcases inp2 with ⟨n2, d2, i2, o2, dep2, fl2, ue2, nt2⟩
  simp only at hname hdesc
  subst hname
  have hpos : 0 < arch.modules.countP (fun m => m.name == inp1.name) := by
    rw [hcount]; exact Nat.one_pos
  rw [List.countP_pos_iff] at hpos
  obtain ⟨ex, hexmem, hexp⟩ := hpos
  have hsome : (arch.modules.find? (fun m => m.name == inp1.name)).isSome := by
    rw [List.find?_isSome]
    exact ⟨ex, hexmem, hexp⟩
  obtain ⟨ex0, hfind⟩ := Option.isSome_iff_exists.mp hsome
  have harch :
      (setModuleDetails f2 t2 ⟨inp1.name, d2, i2, o2, dep2, fl2, ue2, nt2⟩
          (setModuleDetails f1 t1 inp1 ⟨some arch, mf, sf⟩).2).2.architecture
        = some { arch with
            modules := updateFirstModule inp1.name d2 t2
              (updateFirstModule inp1.name inp1.description t1 arch.modules),
            updatedAt := t2 } := by
    simp [setModuleDetails, hfind, find?_updateFirstModule]
  have hfind2 :
      (updateFirstModule inp1.name d2 t2
          (updateFirstModule inp1.name inp1.description t1 arch.modules)).find?
        (fun m => m.name == inp1.name)
        = some { ex0 with description := d2, updatedAt := t2 } := by
    rw [find?_updateFirstModule, find?_updateFirstModule, hfind]
    rfl
  refine ⟨_, harch, ?_, ⟨_, hfind2, rfl⟩⟩
  simp [countP_name_updateFirstModule, hcount]

/-- Witness for C4 at a concrete state: one summary named `m`, upserted
with `d1` then `d2`. -/
theorem upsert_twice_no_duplicate_witness :
    (⟨"m", "d2", "i", "o", none, none, none, none⟩ : SetModuleInput).name
      = (⟨"m", "d1", "i", "o", none, none, none, none⟩ : SetModuleInput).name
    ∧ (⟨"m", "d2", "i", "o", none, none, none, none⟩ : SetModuleInput).description
      ≠ (⟨"m", "d1", "i", "o", none, none, none, none⟩ : SetModuleInput).description
    ∧ ([⟨"a", "m", "d0", none, none, "t0", "t0"⟩] : List ModuleSummary).countP
        (fun m => m.name == "m") = 1
    ∧ ∃ arch2,
        (setModuleDetails "f2" "t2" ⟨"m", "d2", "i", "o", none, none, none, none⟩
            (setModuleDetails "f1" "t1" ⟨"m", "d1", "i", "o", none, none, none, none⟩
              ⟨some ⟨"p", "d", [⟨"a", "m", "d0", none, none, "t0", "t0"⟩], none,
                "t0", "t0"⟩, [], []⟩).2).2.architecture
          = some arch2
        ∧ arch2.modules.countP (fun m => m.name == "m") = 1
        ∧ ∃ m2, arch2.modules.find? (fun m => m.name == "m") = some m2
            ∧ m2.description = "d2" :=
  ⟨rfl, by decide, by decide,
   upsert_twice_no_duplicate
     ⟨"p", "d", [⟨"a", "m", "d0", none, none, "t0", "t0"⟩], none, "t0", "t0"⟩ [] []
     "f1" "t1" "f2" "t2"
     ⟨"m", "d1", "i", "o", none, none, none, none⟩
     ⟨"m", "d2", "i", "o", none, none, none, none⟩
     rfl (by decide) (by decide)⟩

/-- C5: `normalizeProjectId` fails exactly on the undefined or empty
input; every other input maps to the string obtained by replacing each
character outside the allowed class with an underscore, preserving length
(and, being a character-wise map, order); the documented scenario input
normalizes as specified. -/
theorem normalizeProjectId_spec :
    (∀ w : Option String, normalizeProjectId w = none ↔ w = none ∨ w = some "")
    ∧ (∀ s : String, s ≠ "" →
        normalizeProjectId (some s)
          = some (String.mk (s.data.map fun c => if isAllowedChar c then c else '_'))
        ∧ (s.data.map fun c => if isAllowedChar c then c else '_').length
          = s.data.length)
    ∧ normalizeProjectId (some "/home/me/proj 1") = some "_home_me_proj_1" := by
  refine ⟨?_, ?_, ?_⟩
  · intro w
    rcases w with _ | s
    · simp [normalizeProjectId]
    · by_cases h : s = "" <;> simp [normalizeProjectId, h]
  · intro s h
    refine ⟨?_, by simp⟩
    simp only [normalizeProjectId, if_neg h]
    rfl
  · decide

/-- Witness for C5 on the nonempty input `x/y`. -/
theorem normalizeProjectId_spec_witness :
    ("x/y" : String) ≠ ""
    ∧ normalizeProjectId (some "x/y")
        = some (String.mk ("x/y".data.map fun c => if isAllowedChar c then c else '_')) :=
  ⟨by decide, (normalizeProjectId_spec.2.1 "x/y" (by decide)).1⟩

/-- Absence, parse failure and success cases of the shared JSON-document
read operation. -/
theorem readJsonDoc_cases (fs : FS) (p : Path) :
    (readJsonDoc fs p = .ok none ↔ findAssoc p fs.files = none)
    ∧ (∀ raw, findAssoc p fs.files = some (.invalid raw) →
        readJsonDoc fs p = .error (.parseFailure raw))
    ∧ (∀ j, findAssoc p fs.files = some (.json j) →
        readJsonDoc fs p = .ok (some j)) := by
  refine ⟨?_, ?_, ?_⟩
  · rcases h : findAssoc p fs.files with _ | c
    · simp [readJsonDoc, h]
    · rcases c <;> simp [readJsonDoc, h]
  · intro raw h
    simp [readJsonDoc, h]
  · intro j h
    simp [readJsonDoc, h]

/-- C6: each document read operation returns the absent value exactly when
its file does not exist; a file whose bytes fail to parse is surfaced as a
propagated error — never swallowed, never turned into absence — and a
parseable file is returned as a value. -/
theorem read_absent_iff_missing
    (home : Path) (fs : FS) (pid mid sid : String) :
    (readArchitecture home fs pid = .ok none
        ↔ findAssoc (getArchitectureFile home pid) fs.files = none)
    ∧ (∀ raw, findAssoc (getArchitectureFile home pid) fs.files = some (.invalid raw) →
        readArchitecture home fs pid = .error (.parseFailure raw))
    ∧ (∀ j, findAssoc (getArchitectureFile home pid) fs.files = some (.json j) →
        readArchitecture home fs pid = .ok (some j))
    ∧ (readModule home fs pid mid = .ok none
        ↔ findAssoc (getModuleFile home pid mid) fs.files = none)
    ∧ (∀ raw, findAssoc (getModuleFile home pid mid) fs.files = some (.invalid raw) →
        readModule home fs pid mid = .error (.parseFailure raw))
    ∧ (readScript home fs pid sid = .ok none
        ↔ findAssoc (getScriptFile home pid sid) fs.files = none)
    ∧ (∀ raw, findAssoc (getScriptFile home pid sid) fs.files = some (.invalid raw) →
        readScript home fs pid sid = .error (.parseFailure raw)) :=
  ⟨(readJsonDoc_cases fs _).1, (readJsonDoc_cases fs _).2.1, (readJsonDoc_cases fs _).2.2,
   (readJsonDoc_cases fs _).1, (readJsonDoc_cases fs _).2.1,
   (readJsonDoc_cases fs _).1, (readJsonDoc_cases fs _).2.1⟩

/-- Witness for C6: a filesystem holding only an unparseable module file —
the architecture read reports absence, the module read propagates the
parse failure. -/
theorem read_absent_iff_missing_witness :
    readArchitecture ["h"] ⟨[(getModuleFile ["h"] "p" "m", .invalid "not-json")], []⟩ "p"
      = .ok none
    ∧ readModule ["h"] ⟨[(getModuleFile ["h"] "p" "m", .invalid "not-json")], []⟩ "p" "m"
      = .error (.parseFailure "not-json") :=
  ⟨(read_absent_iff_missing ["h"]
      ⟨[(getModuleFile ["h"] "p" "m", .invalid "not-json")], []⟩ "p" "m" "s").1.mpr rfl,
   (read_absent_iff_missing ["h"]
      ⟨[(getModuleFile ["h"] "p" "m", .invalid "not-json")], []⟩ "p" "m" "s").2.2.2.2.1
      "not-json" rfl⟩

theorem ensureDir_files (d : Path) (fs : FS) : (ensureDir d fs).files = fs.files := by
  unfold ensureDir
  split <;> rfl

theorem initializeProjectStorage_files (home : Path) (pid : String) (fs : FS) :
    (initializeProjectStorage home pid fs).files = fs.files := by
  unfold initializeProjectStorage
  rw [ensureDir_files, ensureDir_files]

/-- C7: writing any architecture, module-details or script document and
reading it back through the corresponding operations yields exactly the
written document's JSON encoding, and that encoding decodes to a document
structurally equal to the original (field lookup by name makes key order
irrelevant). -/
theorem write_read_roundtrip
    (home : Path) (fs : FS) (pid : String)
    (arch : ProjectArchitecture) (d : ModuleDetails) (s : ScriptDocumentation) :
    (readArchitecture home (writeArchitecture home pid arch fs) pid
        = .ok (some (encodeArchitecture arch))
      ∧ decodeArchitecture (encodeArchitecture arch) = some arch)
    ∧ (readModule home (writeModule home pid d fs) pid d.moduleId
        = .ok (some (encodeModuleDetails d))
      ∧ decodeModuleDetails (encodeModuleDetails d) = some d)
    ∧ (readScript home (writeScript home pid s fs) pid s.scriptId
        = .ok (some (encodeScript s))
      ∧ decodeScript (encodeScript s) = some s) := by
  refine ⟨⟨?_, decodeArchitecture_encode arch⟩, ⟨?_, decodeModuleDetails_encode d⟩,
    ⟨?_, decodeScript_encode s⟩⟩
  · simp [readArchitecture, writeArchitecture, readJsonDoc, writeFile,
      initializeProjectStorage_files, findAssoc_setAssoc_self]
  · simp [readModule, writeModule, readJsonDoc, writeFile,
      initializeProjectStorage_files, findAssoc_setAssoc_self]
  · simp [readScript, writeScript, readJsonDoc, writeFile, ensureDir_files,
      initializeProjectStorage_files, findAssoc_setAssoc_self]

/-- Modelled from the spec: the listing entry the spec promises for a
file ending in `.json` — its base name without that extension, i.e. the
name with its last five characters removed. -/
def baseNameWithoutJsonExt (f : String) : String :=
  String.mk (f.data.take (f.data.length - 5))

/-- C8 counterexample: in a modules directory holding the single file
`a.jsonx.json`, the listing returns `ax.json` — the name with its first
occurrence of `.json` removed — whereas the base name without the `.json`
extension is `a.jsonx`. -/
theorem listModules_not_extension_strip :
    listModules []
        ⟨[(pathJoin (getProjectDir [] "p") ["modules"] ++ ["a.jsonx.json"], .json .null)],
         [pathJoin (getProjectDir [] "p") ["modules"]]⟩ "p"
      = .ok ["ax.json"]
    ∧ baseNameWithoutJsonExt "a.jsonx.json" = "a.jsonx"
    ∧ ("ax.json" : String) ≠ "a.jsonx" :=
  ⟨rfl, by decide, by decide⟩

/-- C8 (amended): `listModules` and `listScripts` return the empty
sequence — not an error — when the directory does not exist; otherwise
they return, for each file in the directory whose name ends in `.json`,
the name with its first occurrence of the substring `.json` removed
(which equals the base name without the extension whenever `.json` occurs
only as the final extension). -/
theorem listModules_listScripts_listing
    (home : Path) (fs : FS) (pid : String) :
    (fs.dirs.contains (pathJoin (getProjectDir home pid) ["modules"]) = false →
      listModules home fs pid = .ok [])
    ∧ (fs.dirs.contains (pathJoin (getProjectDir home pid) ["modules"]) = true →
      listModules home fs pid = .ok
        (((fs.files.filterMap fun pc =>
              childName (pathJoin (getProjectDir home pid) ["modules"]) pc.1).filter
            fun f => strEndsWith ".json" f).map
          fun f => String.mk (dropFirstOccur ".json".data f.data)))
    ∧ (fs.dirs.contains (pathJoin (getProjectDir home pid) ["scripts"]) = false →
      listScripts home fs pid = .ok [])
    ∧ (fs.dirs.contains (pathJoin (getProjectDir home pid) ["scripts"]) = true →
      listScripts home fs pid = .ok
        (((fs.files.filterMap fun pc =>
              childName (pathJoin (getProjectDir home pid) ["scripts"]) pc.1).filter
            fun f => strEndsWith ".json" f).map
          fun f => String.mk (dropFirstOccur ".json".data f.data))) := by
  refine ⟨?_, ?_, ?_, ?_⟩ <;> intro h <;> simp at h <;>
    simp [listModules, listScripts, readdir, h, jsonBaseNames]

/-- Witness for C8: a missing modules directory lists as empty, and a
directory holding `m.json` lists as `m`. -/
theorem listModules_listScripts_listing_witness :
    ((⟨[], []⟩ : FS).dirs.contains (pathJoin (getProjectDir [] "p") ["modules"]) = false
      ∧ listModules [] ⟨[], []⟩ "p" = .ok [])
    ∧ ((⟨[(pathJoin (getProjectDir [] "p") ["modules"] ++ ["m.json"], .json .null)],
          [pathJoin (getProjectDir [] "p") ["modules"]]⟩ : FS).dirs.contains
          (pathJoin (getProjectDir [] "p") ["modules"]) = true
      ∧ listModules []
          ⟨[(pathJoin (getProjectDir [] "p") ["modules"] ++ ["m.json"], .json .null)],
           [pathJoin (getProjectDir [] "p") ["modules"]]⟩ "p" = .ok ["m"]) :=
  ⟨⟨rfl, (listModules_listScripts_listing [] ⟨[], []⟩ "p").1 rfl⟩,
   ⟨rfl, by
      rw [(listModules_listScripts_listing []
        ⟨[(pathJoin (getProjectDir [] "p") ["modules"] ++ ["m.json"], .json .null)],
         [pathJoin (getProjectDir [] "p") ["modules"]]⟩ "p").2.1 rfl]
      rfl⟩⟩

/-! ### Path-traversal lemmas for C10 -/

theorem foldl_normStep_clean (l : List String)
    (h : ∀ s ∈ l, ¬(s = "" ∨ s = "." ∨ s = "..")) (acc : List String) :
    l.foldl normStep acc = acc ++ l := by
  induction l generalizing acc with
  | nil => simp
  | cons s rest ih =>
      have hs := h s (by simp)
      rw [List.foldl_cons]
      rw [show normStep acc s = acc ++ [s] from by
        simp only [normStep]
        rw [if_neg (fun h1 => hs (h1.elim Or.inl (fun h2 => Or.inr (Or.inl h2)))),
          if_neg (fun h2 => hs (Or.inr (Or.inr h2)))]]
      rw [ih (fun x hx => h x (by simp [hx])) (acc ++ [s])]
      simp

/-- C10: path resolution applies no sanitization — the handlers use the
caller-supplied project id verbatim (never `normalizeProjectId`, whose
output differs on traversal strings), and a project or module identifier
containing `..` components makes `getProjectDir`/`getModuleFile` resolve
to a path outside the storage base or project directory. -/
theorem pathResolution_unsanitized
    (home : Path) (hclean : ∀ s ∈ home, ¬(s = "" ∨ s = "." ∨ s = ".."))
    (pid : String) (hpid : pid ≠ "") (g : Option String) :
    effectiveProjectId (some pid) g = pid
    ∧ normalizeProjectId (some "../escape") = some "___escape"
    ∧ ("___escape" : String) ≠ "../escape"
    ∧ getProjectDir home "../escape" = home ++ ["escape"]
    ∧ ¬ storageBaseDir home <+: getProjectDir home "../escape"
    ∧ getModuleFile home "proj" "../../escape"
        = storageBaseDir home ++ ["escape.json"]
    ∧ ¬ getProjectDir home "proj" <+: getModuleFile home "proj" "../../escape" := by
  have hcleanBase : ∀ s ∈ home ++ [".mcp-architector"], ¬(s = "" ∨ s = "." ∨ s = "..") := by
    intro s hs
    rcases List.mem_append.mp hs with h | h
    · exact hclean s h
    · simp only [List.mem_singleton] at h
      subst h
      decide
  have hbase : storageBaseDir home = home ++ [".mcp-architector"] := by
    show normSegs (home ++ ([".mcp-architector"].map splitPath).flatten) = _
    rw [show ([".mcp-architector"].map splitPath).flatten = [".mcp-architector"] from by decide]
    show (home ++ [".mcp-architector"]).foldl normStep [] = _
    rw [foldl_normStep_clean _ hcleanBase []]
    simp
  have hproj : getProjectDir home "../escape" = home ++ ["escape"] := by
    show normSegs (storageBaseDir home ++ (["../escape"].map splitPath).flatten) = _
    rw [hbase, show (["../escape"].map splitPath).flatten = ["..", "escape"] from by decide]
    show ((home ++ [".mcp-architector"]) ++ ["..", "escape"]).foldl normStep [] = _
    rw [List.foldl_append, foldl_normStep_clean _ hcleanBase []]
    simp [normStep]
  have hcleanProj : ∀ s ∈ (home ++ [".mcp-architector"]) ++ ["proj"],
      ¬(s = "" ∨ s = "." ∨ s = "..") := by
    intro s hs
    rcases List.mem_append.mp hs with h | h
    · exact hcleanBase s h
    · simp only [List.mem_singleton] at h
      subst h
      decide
  have hprojdir : getProjectDir home "proj" = home ++ [".mcp-architector", "proj"] := by
    show normSegs (storageBaseDir home ++ (["proj"].map splitPath).flatten) = _
    rw [hbase, show (["proj"].map splitPath).flatten = ["proj"] from by decide]
    show ((home ++ [".mcp-architector"]) ++ ["proj"]).foldl normStep [] = _
    rw [foldl_normStep_clean _ hcleanProj []]
    simp
  have hmodfile : getModuleFile home "proj" "../../escape"
      = home ++ [".mcp-architector", "escape.json"] := by
    show normSegs (getProjectDir home "proj"
      ++ (["modules", "../../escape" ++ ".json"].map splitPath).flatten) = _
    rw [hprojdir,
      show (["modules", "../../escape" ++ ".json"].map splitPath).flatten
        = ["modules", "..", "..", "escape.json"] from by decide]
    show ((home ++ [".mcp-architector", "proj"])
      ++ ["modules", "..", "..", "escape.json"]).foldl normStep [] = _
    rw [List.foldl_append,
      show (home ++ [".mcp-architector", "proj"]).foldl normStep []
        = home ++ [".mcp-architector", "proj"] from by
          rw [show home ++ [".mcp-architector", "proj"]
            = (home ++ [".mcp-architector"]) ++ ["proj"] from by simp]
          rw [foldl_normStep_clean _ hcleanProj []]
          simp]
    simp [normStep]
  refine ⟨?_, by decide, by decide, hproj, ?_, ?_, ?_⟩
  · simp [effectiveProjectId, jsOrDefault, hpid]
  · rw [hbase, hproj]
    intro hp
    rw [List.prefix_append_right_inj] at hp
    simp [List.cons_prefix_cons] at hp
  · rw [hmodfile, hbase]
    simp
  · rw [hprojdir, hmodfile]
    intro hp
    rw [show home ++ [".mcp-architector", "proj"]
      = (home ++ [".mcp-architector"]) ++ ["proj"] from by simp,
      show home ++ [".mcp-architector", "escape.json"]
      = (home ++ [".mcp-architector"]) ++ ["escape.json"] from by simp,
      List.prefix_append_right_inj] at hp
    simp [List.cons_prefix_cons] at hp

/-- Witness for C10 at a concrete clean home directory and project id. -/
theorem pathResolution_unsanitized_witness :
    (∀ s ∈ (["home", "user"] : List String), ¬(s = "" ∨ s = "." ∨ s = ".."))
    ∧ ("proj2" : String) ≠ ""
    ∧ (effectiveProjectId (some "proj2") none = "proj2"
      ∧ normalizeProjectId (some "../escape") = some "___escape"
      ∧ ("___escape" : String) ≠ "../escape"
      ∧ getProjectDir ["home", "user"] "../escape" = ["home", "user"] ++ ["escape"]
      ∧ ¬ storageBaseDir ["home", "user"] <+: getProjectDir ["home", "user"] "../escape"
      ∧ getModuleFile ["home", "user"] "proj" "../../escape"
          = storageBaseDir ["home", "user"] ++ ["escape.json"]
      ∧ ¬ getProjectDir ["home", "user"] "proj"
          <+: getModuleFile ["home", "user"] "proj" "../../escape") :=
  ⟨by decide, by decide,
   pathResolution_unsanitized ["home", "user"] (by decide) "proj2" (by decide) none⟩

end McpArch
